import Mathlib

/-!
Shallow embedding of the core of the `waveform` Go package
(`waveform.go`, `colorfunc.go`): sample reduction (`RMSF64Samples`),
the read-and-reduce stream loop (`readAndComputeSamples`), the color
policies (`FuzzColor`, `StripeColor`, `filterNilColors`) and the
image renderer (`generateImage`).

Conventions of the embedding:
* Go `float64` values are modelled by `ℚ` (every float64 value is a
  rational number) and `float64` arithmetic by exact rational
  arithmetic; the one irrational operation, `math.Sqrt`, maps into `ℝ`
  via `Real.sqrt`.
* IEEE NaN (which arises only as `Sqrt(0.0/0.0)` in `RMSF64Samples`
  on an empty sample slice) is modelled by `Option.none`.
* A Go run-time panic of a `ColorFunc` (index out of range on an empty
  palette, modulo by zero) is modelled by `Option.none`.
* Go `color.Color` interface values are opaque; they are modelled by `ℕ`,
  with a `nil` interface value modelled by `Option.none`.
* Go integer `/` truncates toward zero; it is modelled by `goDiv` below.
-/

namespace Waveform

/-- Go `color.Color` values, modelled as opaque tokens. -/
abbrev Color := ℕ

/-- Go integer division truncates toward zero (`Int.tdiv`). -/
def goDiv (a b : ℤ) : ℤ := Int.tdiv a b

/-- `imgYDefault`: the default height of the generated waveform image. -/
def imgYDefault : ℕ := 128

/-- `scaleDefault`: the default scaling factor for computed values. -/
def scaleDefault : ℚ := 3.00

/-- `ImageOptions` from `waveform.go` (the fields used by `generateImage`).
`AlternateColor` may be `nil` (`none`). -/
structure ImageOptions where
  backgroundColor : Color
  foregroundColor : Color
  alternateColor : Option Color
  scaleX : ℕ
  scaleY : ℕ
  sharpness : ℕ
  scaleClipping : Bool

/-- The output `image.RGBA`: its bounds and its pixels.  Pixels outside the
bounds are irrelevant; they stay at the background color. -/
structure GoImage where
  width : ℤ
  height : ℤ
  pix : ℤ × ℤ → Color

/-- `img.Set(x, y, c)` of Go's `image` package: a no-op outside the bounds. -/
def GoImage.set (img : GoImage) (x y : ℤ) (c : Color) : GoImage :=
  if 0 ≤ x ∧ x < img.width ∧ 0 ≤ y ∧ y < img.height then
    { img with pix := fun p => if p = (x, y) then c else img.pix p }
  else
    img

/-- The rational computed inside `RMSF64Samples` before the square root:
`sumSquare / float64(samples.Len())`, where `sumSquare` is the sum of
`math.Pow(samples.At(i), 2)` over all samples (waveform.go:210-216). -/
def rmsMeanSquare (samples : List ℚ) : ℚ :=
  (samples.map fun s => s ^ 2).sum / (samples.length : ℚ)

/-- `RMSF64Samples` (waveform.go:208-217): squares and sums all samples,
then returns `Sqrt(sumSquare / n)`.  With zero samples Go computes
`math.Sqrt(0.0 / 0.0) = NaN`; the NaN result is modelled as `none`.
(`Real.sqrt` makes this the one noncomputable definition of the file.) -/
noncomputable def RMSF64Samples (samples : List ℚ) : Option ℝ :=
  if samples.length = 0 then none
  else some (Real.sqrt (rmsMeanSquare samples : ℝ))

/-- Modelled from the spec: the reference root-mean-square definition
`sqrt(sum(s_i^2) / n)`, used to compare `RMSF64Samples` against. -/
noncomputable def specRMS (s : List ℚ) : ℝ :=
  Real.sqrt ((s.map fun x : ℚ => ((x : ℝ)) ^ 2).sum / (s.length : ℝ))

/-! ## Color policies (`colorfunc.go`) -/

/-- `filterNilColors` (colorfunc.go:65-74): strips `nil` colors, keeping
the order of the remaining ones. -/
def filterNilColors (colors : List (Option Color)) : List Color :=
  colors.filterMap id

/-- `FuzzColor` (colorfunc.go:22-33): the constructor only filters `nil`
colors and captures the resulting palette in a closure; it has no error
path. -/
def FuzzColor (colors : List (Option Color)) : List Color :=
  filterNilColors colors

/-- One invocation of the closure returned by `FuzzColor`:
`colors[rand.Intn(len(colors))]`.  `r` is the value drawn from the
random source; `rand.Intn(0)` panics, modelled as `none`. -/
def fuzzColorAt (palette : List Color) (r : ℕ) : Option Color :=
  if palette.length = 0 then none
  else palette[r % palette.length]?

/-- `StripeColor` (colorfunc.go:49-62): the constructor only filters `nil`
colors and captures the palette plus a `lastN` state (initially `0`) in a
closure; it has no error path. -/
def StripeColor (colors : List (Option Color)) : List Color :=
  filterNilColors colors

/-- One invocation of the closure returned by `StripeColor`: if `n > lastN`
then `lastN = n`; returns `colors[lastN % len(colors)]` together with the
new state.  `lastN` starts at `0` and is only ever replaced by a larger
`n`, so it is a natural number.  On an empty palette Go's `% 0` panics,
modelled as `none` (list lookup out of range). -/
def stripeStep (colors : List Color) (lastN : ℕ) (n : ℤ) : ℕ × Option Color :=
  let l := if n > (lastN : ℤ) then n.toNat else lastN
  (l, colors[l % colors.length]?)

/-- Running the `StripeColor` closure over a list of successive `n`
arguments, starting from state `lastN`. -/
def stripeRun (colors : List Color) : List ℤ → ℕ → List (Option Color)
  | [], _ => []
  | n :: ns, lastN =>
    (stripeStep colors lastN n).2 :: stripeRun colors ns (stripeStep colors lastN n).1

/-! ## Read-and-compute stage (`readAndComputeSamples`, waveform.go:222-285) -/

/-- Outcome of one `decoder.Read(samples)` call: a normal read, an
end-of-stream read (the buffer still holds the final, possibly short,
block), or some other decode error (an opaque code). -/
inductive ReadStatus where
  | ok : ReadStatus
  | eos : ReadStatus
  | fail : ℕ → ReadStatus
deriving DecidableEq

/-- Errors surfaced by `readAndComputeSamples`: the two configuration
errors and any decoder error (opaque code, passed through verbatim). -/
inductive ComputeError where
  | nilFunction : ComputeError
  | zeroResolution : ComputeError
  | decode : ℕ → ComputeError
deriving DecidableEq

/-- The read loop of `readAndComputeSamples` (waveform.go:263-281).
Each element of `reads` is the buffer content and error of one
`decoder.Read` call.  Returns the result together with the number of
reads consumed; `none` means the modelled stream was exhausted without
an end-of-stream signal (a real decoder always eventually signals one).
* a read error other than end-of-stream returns that error at once,
  dropping the values computed so far;
* an end-of-stream read still reduces and appends the final block, then
  stops with no error. -/
def readLoop (f : List ℚ → ℚ) :
    List (List ℚ × ReadStatus) → List ℚ → ℕ →
      Option (Except ComputeError (List ℚ)) × ℕ
  | [], _, k => (none, k)
  | (blk, st) :: rest, computed, k =>
    match st with
    | .fail e => (some (.error (.decode e)), k + 1)
    | .eos => (some (.ok (computed ++ [f blk])), k + 1)
    | .ok => readLoop f rest (computed ++ [f blk]) (k + 1)

/-- `ComputeOptions`: `Resolution` and the (possibly `nil`) reduce
function. -/
structure ComputeOptions where
  resolution : ℕ
  function : Option (List ℚ → ℚ)

/-- `readAndComputeSamples` (waveform.go:222-285).  Validates the options
(nil function first, then zero resolution), then opens the decoder
(`openErr = some e` models `audio.NewDecoder` failing with error `e`;
the wrapped error values are passed through as opaque codes), then runs
the read loop.  The second component counts decoder reads performed. -/
def readAndComputeSamples (opts : ComputeOptions) (openErr : Option ℕ)
    (reads : List (List ℚ × ReadStatus)) :
    Option (Except ComputeError (List ℚ)) × ℕ :=
  match opts.function with
  | none => (some (.error .nilFunction), 0)
  | some f =>
    if opts.resolution = 0 then (some (.error .zeroResolution), 0)
    else
      match openErr with
      | some e => (some (.error (.decode e)), 0)
      | none => readLoop f reads [] 0

/-! ## Image renderer (`generateImage`, waveform.go:289-385) -/

/-- Maximum of the computed values (waveform.go:314-319): starts at `0`,
replaced whenever `c > maxValue`. -/
def maxValueOf (computed : List ℚ) : ℚ :=
  computed.foldl (fun m c => if c > m then c else m) 0

/-- Trip count of `for i := 0.30; i < maxValue; i += 0.05` in exact real
arithmetic (waveform.go:323-325): the number of `k : ℕ` with
`0.30 + 0.05 * k < maxValue`. -/
def numDecrements (maxValue : ℚ) : ℕ :=
  ⌈(maxValue - 0.30) / 0.05⌉₊

/-- The amplitude scaling factor `imgScale` (waveform.go:311-326): the
default `3.00`, reduced by `0.25` per loop iteration when
`ScaleClipping` is set. -/
def imgScaleOf (scaleClipping : Bool) (computed : List ℚ) : ℚ :=
  if scaleClipping then
    scaleDefault - 0.25 * (numDecrements (maxValueOf computed) : ℚ)
  else scaleDefault

/-- `peak := int(math.Ceil(float64(options.ScaleX)) / 2)`
(waveform.go:306): `Ceil` is exact on an integer-valued float, the
division happens in `float64` and the `int` conversion truncates, so
this is natural-number division by two. -/
def peakOf (scaleX : ℕ) : ℤ := ((scaleX / 2 : ℕ) : ℤ)

/-- `scaleComputed := int(math.Floor(c * f64BoundY * imgScale))`
(waveform.go:338). -/
def scaleComputedOf (f64BoundY imgScale : ℚ) (c : ℚ) : ℤ :=
  ⌊c * f64BoundY * imgScale⌋

/-- The number of Y iterations drawn for one slice: the Y loop runs from
`imgHalfY - half` while `y < scaleComputed + (imgHalfY - half)`, i.e.
`scaleComputed` times when positive and not at all otherwise. -/
def sliceBandHeight (f64BoundY imgScale c : ℚ) : ℕ :=
  (scaleComputedOf f64BoundY imgScale c).toNat

/-- The color drawn for slice `count` (waveform.go:367-375): the
foreground color when `count % 2 != 0` or no alternate color is set,
otherwise the alternate color. -/
def sliceColor (count : ℕ) (fg : Color) (alt : Option Color) : Color :=
  if count % 2 ≠ 0 ∨ alt = none then fg else alt.getD fg

/-- The per-column vertical adjustment (waveform.go:350-359): columns
below the peak adjust by `(i - peak) * sharpness`, the peak itself by
`0`, columns above by `(peak - i) * sharpness`. -/
def adjustFor (peak sharpness i : ℤ) : ℤ :=
  if i < peak then (i - peak) * sharpness
  else if i = peak then 0
  else (peak - i) * sharpness

/-- Drawing of one slice (the body of the `for count, c := range computed`
loop, waveform.go:335-377): Y runs over the symmetric band, X over the
`scaleX` replicated columns, the adjustment is negated above the
midline, and each pixel is set to the slice's color. -/
def drawSlice (fg : Color) (alt : Option Color) (scaleX : ℕ)
    (peak sharpness imgHalfY : ℤ) (f64BoundY imgScale : ℚ)
    (x : ℤ) (count : ℕ) (c : ℚ) (img : GoImage) : GoImage :=
  let scaleComputed := scaleComputedOf f64BoundY imgScale c
  let halfScaleComputed := goDiv scaleComputed 2
  (List.range scaleComputed.toNat).foldl (fun img j =>
    let y := imgHalfY - halfScaleComputed + (j : ℤ)
    (List.range scaleX).foldl (fun img i =>
      let adjust := adjustFor peak sharpness (i : ℤ)
      let adjust := if y < imgHalfY then -1 * adjust else adjust
      img.set (x + (i : ℤ)) (y + adjust) (sliceColor count fg alt)) img) img

/-- The slice loop of `generateImage`: `x` advances by `scaleX` per
slice, `count` is the slice index. -/
def drawSlices (fg : Color) (alt : Option Color) (scaleX : ℕ)
    (peak sharpness imgHalfY : ℤ) (f64BoundY imgScale : ℚ) :
    ℤ → ℕ → List ℚ → GoImage → GoImage
  | _, _, [], img => img
  | x, count, c :: rest, img =>
    drawSlices fg alt scaleX peak sharpness imgHalfY f64BoundY imgScale
      (x + (scaleX : ℤ)) (count + 1) rest
      (drawSlice fg alt scaleX peak sharpness imgHalfY f64BoundY imgScale
        x count c img)

/-- `generateImage` (waveform.go:289-385): an `imgX × imgY` image filled
with the background color, over which every computed value is drawn as
a symmetric band. -/
def generateImage (computed : List ℚ) (options : ImageOptions) : GoImage :=
  let imgX : ℤ := (computed.length * options.scaleX : ℕ)
  let imgY : ℤ := (imgYDefault * options.scaleY : ℕ)
  let base : GoImage := { width := imgX, height := imgY,
                          pix := fun _ => options.backgroundColor }
  let imgHalfY : ℤ := goDiv imgY 2
  drawSlices options.foregroundColor options.alternateColor options.scaleX
    (peakOf options.scaleX) (options.sharpness : ℤ) imgHalfY ((imgY : ℤ) : ℚ)
    (imgScaleOf options.scaleClipping computed) 0 0 computed base

/-! ## Helper lemmas -/

lemma GoImage.set_width (img : GoImage) (x y : ℤ) (c : Color) :
    (img.set x y c).width = img.width := by
  unfold GoImage.set; split <;> rfl

lemma GoImage.set_height (img : GoImage) (x y : ℤ) (c : Color) :
    (img.set x y c).height = img.height := by
  unfold GoImage.set; split <;> rfl

lemma foldl_width {α : Type} (f : GoImage → α → GoImage)
    (h : ∀ im a, (f im a).width = im.width) :
    ∀ (l : List α) (img : GoImage), (l.foldl f img).width = img.width
  | [], _ => rfl
  | a :: l, img => by
    rw [List.foldl_cons, foldl_width f h l]; exact h img a

lemma foldl_height {α : Type} (f : GoImage → α → GoImage)
    (h : ∀ im a, (f im a).height = im.height) :
    ∀ (l : List α) (img : GoImage), (l.foldl f img).height = img.height
  | [], _ => rfl
  | a :: l, img => by
    rw [List.foldl_cons, foldl_height f h l]; exact h img a

lemma drawSlice_width (fg : Color) (alt : Option Color) (scaleX : ℕ)
    (peak sharpness imgHalfY : ℤ) (f64BoundY imgScale : ℚ)
    (x : ℤ) (count : ℕ) (c : ℚ) (img : GoImage) :
    (drawSlice fg alt scaleX peak sharpness imgHalfY f64BoundY imgScale
      x count c img).width = img.width := by
  unfold drawSlice
  refine foldl_width _ (fun im j => ?_) _ _
  exact foldl_width _ (fun im i => GoImage.set_width ..) _ _

lemma drawSlice_height (fg : Color) (alt : Option Color) (scaleX : ℕ)
    (peak sharpness imgHalfY : ℤ) (f64BoundY imgScale : ℚ)
    (x : ℤ) (count : ℕ) (c : ℚ) (img : GoImage) :
    (drawSlice fg alt scaleX peak sharpness imgHalfY f64BoundY imgScale
      x count c img).height = img.height := by
  unfold drawSlice
  refine foldl_height _ (fun im j => ?_) _ _
  exact foldl_height _ (fun im i => GoImage.set_height ..) _ _

lemma drawSlices_width (fg : Color) (alt : Option Color) (scaleX : ℕ)
    (peak sharpness imgHalfY : ℤ) (f64BoundY imgScale : ℚ) :
    ∀ (computed : List ℚ) (x : ℤ) (count : ℕ) (img : GoImage),
      (drawSlices fg alt scaleX peak sharpness imgHalfY f64BoundY imgScale
        x count computed img).width = img.width
  | [], _, _, _ => rfl
  | c :: rest, x, count, img => by
    rw [drawSlices, drawSlices_width fg alt scaleX peak sharpness imgHalfY
      f64BoundY imgScale rest, drawSlice_width]

lemma drawSlices_height (fg : Color) (alt : Option Color) (scaleX : ℕ)
    (peak sharpness imgHalfY : ℤ) (f64BoundY imgScale : ℚ) :
    ∀ (computed : List ℚ) (x : ℤ) (count : ℕ) (img : GoImage),
      (drawSlices fg alt scaleX peak sharpness imgHalfY f64BoundY imgScale
        x count computed img).height = img.height
  | [], _, _, _ => rfl
  | c :: rest, x, count, img => by
    rw [drawSlices, drawSlices_height fg alt scaleX peak sharpness imgHalfY
      f64BoundY imgScale rest, drawSlice_height]

lemma generateImage_width (computed : List ℚ) (options : ImageOptions) :
    (generateImage computed options).width
      = ((computed.length * options.scaleX : ℕ) : ℤ) := by
  unfold generateImage
  rw [drawSlices_width]

lemma generateImage_height (computed : List ℚ) (options : ImageOptions) :
    (generateImage computed options).height
      = ((imgYDefault * options.scaleY : ℕ) : ℤ) := by
  unfold generateImage
  rw [drawSlices_height]

/-! ## Claim theorems -/

/-- C1: for every magnitude sequence and every validated configuration
(`ScaleX ≥ 1`, `ScaleY ≥ 1`), `generateImage` returns an image whose
bounds are exactly `width = len(values) * ScaleX` and
`height = 128 * ScaleY`; a sequence of length 5 at scale (1,1) yields
width 5 and height 128, and the empty sequence yields a zero-width
image (and no error: `generateImage` is total). -/
theorem generateImage_bounds_spec :
    (∀ (values : List ℚ) (opts : ImageOptions), 1 ≤ opts.scaleX → 1 ≤ opts.scaleY →
      (generateImage values opts).width = ((values.length * opts.scaleX : ℕ) : ℤ) ∧
      (generateImage values opts).height = ((128 * opts.scaleY : ℕ) : ℤ)) ∧
    (∀ (values : List ℚ) (opts : ImageOptions), values.length = 5 →
      opts.scaleX = 1 → opts.scaleY = 1 →
      (generateImage values opts).width = 5 ∧
      (generateImage values opts).height = 128) ∧
    (∀ opts : ImageOptions, (generateImage [] opts).width = 0) := by
  refine ⟨fun values opts _ _ => ⟨generateImage_width .., generateImage_height ..⟩,
    fun values opts h5 hx hy => ?_, fun opts => ?_⟩
  · rw [generateImage_width, generateImage_height, h5, hx, hy]; constructor <;> rfl
  · rw [generateImage_width]; simp

/-- C1 witness: a sequence of length 5 at scale (1, 1). -/
theorem generateImage_bounds_spec_witness :
    (generateImage (List.replicate 5 (0 : ℚ)) ⟨0, 1, none, 1, 1, 1, false⟩).width = 5 ∧
    (generateImage (List.replicate 5 (0 : ℚ)) ⟨0, 1, none, 1, 1, 1, false⟩).height = 128 := by
  have h := generateImage_bounds_spec.1 (List.replicate 5 (0 : ℚ))
    ⟨0, 1, none, 1, 1, 1, false⟩ (by norm_num) (by norm_num)
  simpa using h

/-- C8: the compute operation fails fast on invalid configuration: with a
nil reduce function it returns the nil-function error, and with zero
resolution the zero-resolution error — in both cases for every possible
decoder-open outcome and stream, performing zero decoder reads. -/
theorem compute_validation_spec :
    (∀ (res : ℕ) (openErr : Option ℕ) (reads : List (List ℚ × ReadStatus)),
      readAndComputeSamples ⟨res, none⟩ openErr reads
        = (some (Except.error ComputeError.nilFunction), 0)) ∧
    (∀ (f : List ℚ → ℚ) (openErr : Option ℕ) (reads : List (List ℚ × ReadStatus)),
      readAndComputeSamples ⟨0, some f⟩ openErr reads
        = (some (Except.error ComputeError.zeroResolution), 0)) := by
  exact ⟨fun res openErr reads => rfl, fun f openErr reads => rfl⟩

/-- C6: `StripeColor` with a one-color palette returns that color on
every call regardless of `n`; with palette `[A, B, C]` and strictly
increasing `n = 0..5` it returns `A, B, C, A, B, C`; and in general a
call with `n` above the last-seen value moves the rotation state to `n`
and returns `palette[n % size]`. -/
theorem stripeColor_rotation_spec :
    (∀ (a : Color) (ns : List ℤ) (st : ℕ),
      stripeRun [a] ns st = ns.map fun _ => some a) ∧
    (∀ a b c : Color, stripeRun [a, b, c] [0, 1, 2, 3, 4, 5] 0
      = [some a, some b, some c, some a, some b, some c]) ∧
    (∀ (colors : List Color) (lastN : ℕ) (n : ℤ), (lastN : ℤ) < n →
      stripeStep colors lastN n = (n.toNat, colors[n.toNat % colors.length]?)) := by
  refine ⟨fun a ns => ?_, fun a b c => by simp [stripeRun, stripeStep],
    fun colors lastN n h => ?_⟩
  · induction ns with
    | nil => intro st; rfl
    | cons n ns ih => intro st; simp [stripeRun, stripeStep, ih, Nat.mod_one]
  · simp [stripeStep, h]

/-- C6 witness: a jump of `n` past the last-seen value `0` with palette
`[5, 7]` lands on `palette[3 % 2] = 7`. -/
theorem stripeColor_rotation_spec_witness :
    stripeStep [5, 7] 0 3 = (3, some 7) := by
  have h := stripeColor_rotation_spec.2.2 [5, 7] 0 3 (by norm_num)
  simpa using h

/-- C9 counterexample to the claim as stated: `FuzzColor` and
`StripeColor` given an all-nil palette do NOT reject it at construction
time — construction succeeds with an empty filtered palette and the
returned `ColorFunc` faults (panics, modelled `none`) at its first
invocation. -/
theorem colorfunc_construction_claim_cex :
    FuzzColor [none] = [] ∧ fuzzColorAt (FuzzColor [none]) 0 = none ∧
    StripeColor [none] = [] ∧ (stripeStep (StripeColor [none]) 0 0).2 = none := by
  refine ⟨rfl, ?_, rfl, ?_⟩ <;> simp [fuzzColorAt, stripeStep, FuzzColor,
    StripeColor, filterNilColors]

/-- C9 amended: the constructors filter nil palette entries but accept an
empty or all-nil palette without error; whenever the filtered palette is
empty, the returned `ColorFunc` faults on every invocation (first
included) rather than being rejected at construction. -/
theorem colorfunc_construction_amended :
    (∀ cs : List (Option Color), filterNilColors cs = [] →
      ∀ r : ℕ, fuzzColorAt (FuzzColor cs) r = none) ∧
    (∀ cs : List (Option Color), filterNilColors cs = [] →
      ∀ (lastN : ℕ) (n : ℤ), (stripeStep (StripeColor cs) lastN n).2 = none) := by
  constructor
  · intro cs h r
    simp [fuzzColorAt, FuzzColor, h]
  · intro cs h lastN n
    simp [stripeStep, StripeColor, h]

/-- C9 amended witness: the all-nil palette `[nil]`. -/
theorem colorfunc_construction_amended_witness :
    fuzzColorAt (FuzzColor [none]) 3 = none ∧
    (stripeStep (StripeColor [none]) 2 5).2 = none :=
  ⟨colorfunc_construction_amended.1 [none] rfl 3,
   colorfunc_construction_amended.2 [none] rfl 2 5⟩

lemma list_sum_const (l : List ℚ) (w : ℚ) (h : ∀ x ∈ l, x = w) :
    l.sum = l.length * w := by
  induction l with
  | nil => simp
  | cons a l ih =>
    have ha := h a (List.mem_cons_self a l)
    have hl := ih fun x hx => h x (List.mem_cons_of_mem a hx)
    rw [List.sum_cons, ha, hl, List.length_cons]
    push_cast; ring

lemma cast_sum_sq (s : List ℚ) :
    (((s.map fun x => x ^ 2).sum : ℚ) : ℝ) = (s.map fun x : ℚ => ((x : ℝ)) ^ 2).sum := by
  induction s with
  | nil => simp
  | cons a l ih => simp only [List.map_cons, List.sum_cons, Rat.cast_add, Rat.cast_pow, ih]

lemma rmsMeanSquare_cast (s : List ℚ) :
    ((rmsMeanSquare s : ℚ) : ℝ) = (s.map fun x : ℚ => ((x : ℝ)) ^ 2).sum / (s.length : ℝ) := by
  unfold rmsMeanSquare
  rw [Rat.cast_div, cast_sum_sq, Rat.cast_natCast]

lemma rmsMeanSquare_const (s : List ℚ) (w : ℚ) (h : ∀ x ∈ s, x ^ 2 = w)
    (hs : s.length ≠ 0) : rmsMeanSquare s = w := by
  unfold rmsMeanSquare
  rw [list_sum_const (s.map fun x => x ^ 2) w (by simpa using h)]
  rw [List.length_map, mul_comm, mul_div_assoc, div_self (by exact_mod_cast hs), mul_one]

/-- C2: `RMSF64Samples` equals the reference root-mean-square
`sqrt(sum(s_i^2) / n)` on every sequence of length ≥ 1; on all-equal
samples of value `v` (any sign) it returns `|v|`, and when every sample
has magnitude `v` it returns `v`; on the empty sequence it does not
fault and returns NaN (modelled `none`). -/
theorem rms_reference_spec :
    (∀ s : List ℚ, 1 ≤ s.length → RMSF64Samples s = some (specRMS s)) ∧
    (∀ (s : List ℚ) (v : ℚ), 1 ≤ s.length → (∀ x ∈ s, x = v) →
      RMSF64Samples s = some |(v : ℝ)|) ∧
    (∀ (s : List ℚ) (v : ℚ), 1 ≤ s.length → (∀ x ∈ s, |x| = v) →
      RMSF64Samples s = some ((v : ℝ))) ∧
    RMSF64Samples [] = none := by
  have hlen : ∀ s : List ℚ, 1 ≤ s.length → s.length ≠ 0 := fun s h => by omega
  refine ⟨fun s h => ?_, fun s v h hv => ?_, fun s v h hv => ?_, rfl⟩
  · rw [RMSF64Samples, if_neg (hlen s h), specRMS, rmsMeanSquare_cast]
  · rw [RMSF64Samples, if_neg (hlen s h),
      rmsMeanSquare_const s (v ^ 2) (fun x hx => by rw [hv x hx]) (hlen s h)]
    have : ((v ^ 2 : ℚ) : ℝ) = ((v : ℝ)) ^ 2 := by push_cast; rfl
    rw [this, Real.sqrt_sq_eq_abs]
  · have hv2 : ∀ x ∈ s, x ^ 2 = v ^ 2 := fun x hx => by
      rw [← sq_abs x, hv x hx]
    rw [RMSF64Samples, if_neg (hlen s h), rmsMeanSquare_const s (v ^ 2) hv2 (hlen s h)]
    have h0 : (0 : ℚ) ≤ v := by
      obtain ⟨x, hx⟩ := List.exists_mem_of_length_pos (by omega : 0 < s.length)
      rw [← hv x hx]; exact abs_nonneg x
    have : ((v ^ 2 : ℚ) : ℝ) = ((v : ℝ)) ^ 2 := by push_cast; rfl
    rw [this, Real.sqrt_sq_eq_abs, abs_of_nonneg (by exact_mod_cast h0)]

/-- C2 witness: a singleton matches the reference; a mixed-sign pair of
magnitude 1/2 yields 1/2. -/
theorem rms_reference_spec_witness :
    RMSF64Samples [(1/2 : ℚ)] = some (specRMS [(1/2 : ℚ)]) ∧
    RMSF64Samples [(-1/2 : ℚ), (1/2 : ℚ)] = some (((1/2 : ℚ) : ℝ)) := by
  constructor
  · exact rms_reference_spec.1 [(1/2 : ℚ)] (by norm_num)
  · refine rms_reference_spec.2.2.1 [(-1/2 : ℚ), (1/2 : ℚ)] (1/2) (by norm_num) ?_
    intro x hx
    rcases List.mem_cons.mp hx with h | h
    · norm_num [h]
    · simp only [List.mem_singleton] at h; norm_num [h]

/-- C7: `RMSF64Samples` is sign-invariant and order-independent:
elementwise negation and permutation leave the result unchanged, and in
particular `{-0.10,...,-0.50}` and `{0.10,...,0.50}` yield the identical
result. -/
theorem rms_invariance_spec :
    (∀ s : List ℚ, RMSF64Samples (s.map fun x => -x) = RMSF64Samples s) ∧
    (∀ s t : List ℚ, s.Perm t → RMSF64Samples s = RMSF64Samples t) ∧
    RMSF64Samples [(-0.10 : ℚ), -0.20, -0.30, -0.40, -0.50]
      = RMSF64Samples [(0.10 : ℚ), 0.20, 0.30, 0.40, 0.50] := by
  have hneg : ∀ s : List ℚ, RMSF64Samples (s.map fun x => -x) = RMSF64Samples s := by
    intro s
    unfold RMSF64Samples rmsMeanSquare
    simp [List.map_map, Function.comp_def]
  refine ⟨hneg, fun s t h => ?_, ?_⟩
  · unfold RMSF64Samples rmsMeanSquare
    rw [h.length_eq, (h.map fun x => x ^ 2).sum_eq]
  · have : [(-0.10 : ℚ), -0.20, -0.30, -0.40, -0.50]
        = ([(0.10 : ℚ), 0.20, 0.30, 0.40, 0.50].map fun x => -x) := by
      norm_num
    rw [this, hneg]

/-- C7 witness: a two-element permutation. -/
theorem rms_invariance_spec_witness :
    RMSF64Samples [(1 : ℚ), 2] = RMSF64Samples [(2 : ℚ), 1] :=
  rms_invariance_spec.2.1 [1, 2] [2, 1] (List.Perm.swap 2 1 [])

lemma readLoop_ok_app (f : List ℚ → ℚ) :
    ∀ (blks : List (List ℚ)) (rest : List (List ℚ × ReadStatus))
      (computed : List ℚ) (k : ℕ),
      readLoop f ((blks.map fun b => (b, ReadStatus.ok)) ++ rest) computed k
        = readLoop f rest (computed ++ blks.map f) (k + blks.length)
  | [], rest, computed, k => by simp
  | b :: blks, rest, computed, k => by
    rw [List.map_cons, List.cons_append, readLoop,
      readLoop_ok_app f blks rest (computed ++ [f b]) (k + 1)]
    simp [Nat.add_assoc, Nat.add_comm 1 blks.length]

/-- C3: for every stream consumed by `readAndComputeSamples` under valid
options: a mid-stream read error other than end-of-stream is returned
as-is with all partial results discarded (the result carries no
magnitude sequence), while an end-of-stream read still reduces and
appends the final block and terminates successfully with no error. -/
theorem readAndComputeSamples_stream_spec :
    ∀ (f : List ℚ → ℚ) (res : ℕ), res ≠ 0 →
      (∀ (blks : List (List ℚ)) (blk : List ℚ) (e : ℕ)
          (rest : List (List ℚ × ReadStatus)),
        readAndComputeSamples ⟨res, some f⟩ none
            ((blks.map fun b => (b, ReadStatus.ok)) ++ (blk, ReadStatus.fail e) :: rest)
          = (some (Except.error (ComputeError.decode e)), blks.length + 1)) ∧
      (∀ (blks : List (List ℚ)) (blk : List ℚ),
        readAndComputeSamples ⟨res, some f⟩ none
            ((blks.map fun b => (b, ReadStatus.ok)) ++ [(blk, ReadStatus.eos)])
          = (some (Except.ok (blks.map f ++ [f blk])), blks.length + 1)) := by
  intro f res hres
  constructor
  · intro blks blk e rest
    rw [readAndComputeSamples]
    simp only [if_neg hres]
    rw [readLoop_ok_app f blks ((blk, ReadStatus.fail e) :: rest) [] 0, readLoop]
    simp [Nat.add_comm]
  · intro blks blk
    rw [readAndComputeSamples]
    simp only [if_neg hres]
    rw [readLoop_ok_app f blks [(blk, ReadStatus.eos)] [] 0, readLoop]
    simp [Nat.add_comm]

/-- C3 witness: one good read followed by a failing read aborts with that
error after two reads; one good read followed by an end-of-stream read
returns both reduced values after two reads. -/
theorem readAndComputeSamples_stream_spec_witness :
    readAndComputeSamples ⟨1, some (fun l : List ℚ => l.sum)⟩ none
        [([1], ReadStatus.ok), ([2], ReadStatus.fail 7)]
      = (some (Except.error (ComputeError.decode 7)), 2) ∧
    readAndComputeSamples ⟨1, some (fun l : List ℚ => l.sum)⟩ none
        [([1], ReadStatus.ok), ([2], ReadStatus.eos)]
      = (some (Except.ok [(1 : ℚ), 2]), 2) := by
  obtain ⟨h1, h2⟩ := readAndComputeSamples_stream_spec (fun l : List ℚ => l.sum) 1
    (by norm_num)
  constructor
  · have := h1 [[1]] [2] 7 []
    simpa using this
  · have := h2 [[1]] [2]
    simpa using this

/-- C4: the amplitude scale factor is exactly 3.00 with
clipping-compensation disabled; with it enabled it is 3.00 reduced by
0.25 for each 0.05 increment of the maximum magnitude above the 0.30
threshold (`numDecrements` counts exactly the increments `k` with
`0.30 + 0.05k < max`); and for the constant sequence `1.0` repeated 5
times at scale (1,1) the drawn band height with compensation enabled is
strictly smaller than with it disabled. -/
theorem clipping_scale_spec :
    (∀ computed : List ℚ, imgScaleOf false computed = 3) ∧
    (∀ computed : List ℚ, imgScaleOf true computed
      = 3 - 0.25 * (numDecrements (maxValueOf computed) : ℚ)) ∧
    (∀ (m : ℚ) (k : ℕ), k < numDecrements m ↔ 0.30 + 0.05 * (k : ℚ) < m) ∧
    sliceBandHeight 128 (imgScaleOf true (List.replicate 5 1)) 1
      < sliceBandHeight 128 (imgScaleOf false (List.replicate 5 1)) 1 := by
  have hforall3 : ∀ computed : List ℚ, imgScaleOf false computed = 3 := by
    intro computed; norm_num [imgScaleOf, scaleDefault]
  refine ⟨hforall3, fun computed => by norm_num [imgScaleOf, scaleDefault],
    fun m k => ?_, ?_⟩
  · rw [numDecrements, Nat.lt_ceil, lt_div_iff₀ (by norm_num : (0 : ℚ) < 0.05)]
    constructor <;> intro h <;> linarith
  · have hm : maxValueOf (List.replicate 5 (1 : ℚ)) = 1 := by
      norm_num [maxValueOf, List.replicate]
    have hd : numDecrements (1 : ℚ) = 14 := by norm_num [numDecrements]
    have hs : imgScaleOf true (List.replicate 5 (1 : ℚ)) = -(1/2) := by
      rw [imgScaleOf, hm, hd]; norm_num [scaleDefault]
    have hz : sliceBandHeight 128 (imgScaleOf true (List.replicate 5 (1 : ℚ))) 1 = 0 := by
      rw [sliceBandHeight, scaleComputedOf, hs]
      have hf : (⌊(1 : ℚ) * 128 * (-(1/2))⌋ : ℤ) = -64 := by norm_num
      rw [hf]; rfl
    have hp : sliceBandHeight 128 (imgScaleOf false (List.replicate 5 (1 : ℚ))) 1 = 384 := by
      rw [sliceBandHeight, scaleComputedOf, hforall3]
      have hf : (⌊(1 : ℚ) * 128 * 3⌋ : ℤ) = 384 := by norm_num
      rw [hf]; rfl
    rw [hz, hp]; norm_num

/-- C4 witness: at maximum magnitude 1 there is at least one 0.05
increment above the 0.30 threshold, and the concrete band heights. -/
theorem clipping_scale_spec_witness :
    0 < numDecrements 1 ∧
    sliceBandHeight 128 (imgScaleOf true (List.replicate 5 1)) 1
      < sliceBandHeight 128 (imgScaleOf false (List.replicate 5 1)) 1 :=
  ⟨(clipping_scale_spec.2.2.1 1 0).mpr (by norm_num), clipping_scale_spec.2.2.2⟩

lemma GoImage.set_pix_cases (img : GoImage) (x y : ℤ) (c : Color) (p : ℤ × ℤ) :
    (img.set x y c).pix p = img.pix p ∨ (img.set x y c).pix p = c := by
  unfold GoImage.set
  split
  · by_cases hp : p = (x, y) <;> simp [hp]
  · exact Or.inl rfl

lemma foldl_pix_cases {α : Type} (f : GoImage → α → GoImage) (c : Color)
    (h : ∀ im a p, (f im a).pix p = im.pix p ∨ (f im a).pix p = c) :
    ∀ (l : List α) (img : GoImage) (p : ℤ × ℤ),
      (l.foldl f img).pix p = img.pix p ∨ (l.foldl f img).pix p = c
  | [], _, _ => Or.inl rfl
  | a :: l, img, p => by
    rw [List.foldl_cons]
    rcases foldl_pix_cases f c h l (f img a) p with h1 | h1
    · rcases h img a p with h2 | h2
      · exact Or.inl (h1.trans h2)
      · exact Or.inr (h1.trans h2)
    · exact Or.inr h1

lemma drawSlice_pix_cases (fg : Color) (alt : Option Color) (scaleX : ℕ)
    (peak sharpness imgHalfY : ℤ) (f64BoundY imgScale : ℚ)
    (x : ℤ) (count : ℕ) (c : ℚ) (img : GoImage) (p : ℤ × ℤ) :
    (drawSlice fg alt scaleX peak sharpness imgHalfY f64BoundY imgScale
      x count c img).pix p = img.pix p ∨
    (drawSlice fg alt scaleX peak sharpness imgHalfY f64BoundY imgScale
      x count c img).pix p = sliceColor count fg alt := by
  unfold drawSlice
  refine foldl_pix_cases _ _ (fun im j q => ?_) _ _ _
  refine foldl_pix_cases _ _ (fun im2 i q2 => ?_) _ _ _
  exact GoImage.set_pix_cases ..

/-- C5 counterexample to the claim as stated: with an alternate color
configured, the slice at EVEN index 0 is drawn with the alternate
color, not the foreground color (foreground 1, alternate 2, and the one
drawn pixel of slice 0 holds color 2). -/
theorem slice_parity_claim_cex :
    (generateImage [(1/384 : ℚ)] ⟨0, 1, some 2, 1, 1, 1, false⟩).pix (0, 64) = 2 ∧
    (generateImage [(1/384 : ℚ)] ⟨0, 1, some 2, 1, 1, 1, false⟩).pix (0, 64)
      ≠ (⟨0, 1, some 2, 1, 1, 1, false⟩ : ImageOptions).foregroundColor := by
  have h1 : scaleComputedOf 128 (imgScaleOf false [(384⁻¹ : ℚ)]) 384⁻¹ = 1 := by
    norm_num [scaleComputedOf, imgScaleOf, scaleDefault]
  have h2 : Int.tdiv 128 2 = 64 := by decide
  have h3 : Int.tdiv 1 2 = 0 := by decide
  have hr : List.range 1 = [0] := by decide
  constructor <;>
    simp [generateImage, drawSlices, drawSlice, imgYDefault, peakOf, goDiv, h1, h2, h3,
      hr, adjustFor, sliceColor, GoImage.set, List.flatMap_cons, List.flatMap_nil,
      List.foldl_cons, List.foldl_nil]

/-- C5 amended: every pixel a slice draws is drawn with `sliceColor`,
which is the ALTERNATE color when the slice index is even and an
alternate color is configured, and the foreground color when the index
is odd or no alternate color is configured. -/
theorem slice_parity_amended :
    (∀ (fg : Color) (alt : Option Color) (scaleX : ℕ)
        (peak sharpness imgHalfY : ℤ) (f64BoundY imgScale : ℚ)
        (x : ℤ) (count : ℕ) (c : ℚ) (img : GoImage) (p : ℤ × ℤ),
      (drawSlice fg alt scaleX peak sharpness imgHalfY f64BoundY imgScale
        x count c img).pix p = img.pix p ∨
      (drawSlice fg alt scaleX peak sharpness imgHalfY f64BoundY imgScale
        x count c img).pix p = sliceColor count fg alt) ∧
    (∀ (count : ℕ) (fg b : Color), count % 2 = 0 → sliceColor count fg (some b) = b) ∧
    (∀ (count : ℕ) (fg : Color) (alt : Option Color), count % 2 = 1 →
      sliceColor count fg alt = fg) ∧
    (∀ (count : ℕ) (fg : Color), sliceColor count fg none = fg) := by
  refine ⟨fun fg alt scaleX peak sharpness imgHalfY f64BoundY imgScale x count c img p =>
    drawSlice_pix_cases .., fun count fg b h => ?_, fun count fg alt h => ?_,
    fun count fg => ?_⟩
  · simp [sliceColor, h]
  · simp [sliceColor, h]
  · simp [sliceColor]

/-- C5 amended witness: slice 0 (even) with alternate 2 draws 2; slice 1
(odd) draws the foreground 1; slice 0 with no alternate draws the
foreground; and a pixel of a drawn image is background or slice color. -/
theorem slice_parity_amended_witness :
    sliceColor 0 1 (some 2) = 2 ∧ sliceColor 1 1 (some 2) = 1 ∧
    sliceColor 0 1 none = 1 ∧
    ((drawSlice 1 (some 2) 1 0 1 64 128 3 0 0 (1/384)
        ⟨1, 128, fun _ => 0⟩).pix (0, 64) = (⟨1, 128, fun _ => 0⟩ : GoImage).pix (0, 64) ∨
      (drawSlice 1 (some 2) 1 0 1 64 128 3 0 0 (1/384)
        ⟨1, 128, fun _ => 0⟩).pix (0, 64) = sliceColor 0 1 (some 2)) :=
  ⟨slice_parity_amended.2.1 0 1 2 rfl, slice_parity_amended.2.2.1 1 1 (some 2) rfl,
   slice_parity_amended.2.2.2 0 1,
   slice_parity_amended.1 1 (some 2) 1 0 1 64 128 3 0 0 (1/384) ⟨1, 128, fun _ => 0⟩ (0, 64)⟩

lemma drawSlice_sharpness_eq (fg : Color) (alt : Option Color) (s₁ s₂ imgHalfY : ℤ)
    (f64BoundY imgScale : ℚ) (x : ℤ) (count : ℕ) (c : ℚ) (img : GoImage) :
    drawSlice fg alt 1 0 s₁ imgHalfY f64BoundY imgScale x count c img
      = drawSlice fg alt 1 0 s₂ imgHalfY f64BoundY imgScale x count c img := by
  unfold drawSlice
  refine List.foldl_ext _ _ _ fun im j hj => ?_
  refine List.foldl_ext _ _ _ fun im2 i hi => ?_
  have hi0 : i = 0 := by simpa using hi
  subst hi0
  simp [adjustFor]

lemma drawSlices_sharpness_eq (fg : Color) (alt : Option Color) (s₁ s₂ imgHalfY : ℤ)
    (f64BoundY imgScale : ℚ) :
    ∀ (computed : List ℚ) (x : ℤ) (count : ℕ) (img : GoImage),
      drawSlices fg alt 1 0 s₁ imgHalfY f64BoundY imgScale x count computed img
        = drawSlices fg alt 1 0 s₂ imgHalfY f64BoundY imgScale x count computed img
  | [], _, _, _ => rfl
  | c :: rest, x, count, img => by
    rw [drawSlices, drawSlices, drawSlice_sharpness_eq fg alt s₁ s₂,
      drawSlices_sharpness_eq fg alt s₁ s₂ imgHalfY f64BoundY imgScale rest]

/-- C10: with `ScaleX = 1` the peak column index is 0, the per-column
vertical adjustment at the peak is 0, and the generated image is
identical for all values of `Sharpness`. -/
theorem sharpness_noop_spec :
    peakOf 1 = 0 ∧
    (∀ s : ℤ, adjustFor (peakOf 1) s 0 = 0) ∧
    (∀ (computed : List ℚ) (opts : ImageOptions) (s : ℕ), opts.scaleX = 1 →
      generateImage computed opts
        = generateImage computed { opts with sharpness := s }) := by
  refine ⟨rfl, fun s => rfl, fun computed opts s h => ?_⟩
  unfold generateImage
  simp only [h]
  have hp : peakOf 1 = 0 := rfl
  rw [hp]
  exact drawSlices_sharpness_eq ..

/-- C10 witness: the image of a single magnitude at scale (1,1) is
unchanged when sharpness moves from 1 to 9. -/
theorem sharpness_noop_spec_witness :
    generateImage [(1 : ℚ)] ⟨0, 1, none, 1, 1, 1, false⟩
      = generateImage [(1 : ℚ)] ⟨0, 1, none, 1, 1, 9, false⟩ :=
  sharpness_noop_spec.2.2 [(1 : ℚ)] ⟨0, 1, none, 1, 1, 1, false⟩ 9 rfl

end Waveform
